import Mathlib

/-!
Shallow embedding of the `plz` repository's JSON encoder subsystem
(`msgfmt/jsonfmt/encoder.go`, `msgfmt/formatter_json.go`) and of the
goroutine lifecycle helper (`UnboundedExecutor`).

Go's `reflect.Type` values are modelled by the inductive `GoType`: a type
carries its printed name (the result of `reflect.Type.String()`), two
booleans recording whether the type's method set satisfies the `error`
interface and the `json.Marshaler` interface, and its structural shape.
Type identity (`==` on `reflect.Type`) is modelled by decidable equality
on `GoType`; two structurally identical types with the same name are the
same Go type.  Struct tags are modelled by the value of
`reflect.StructTag.Get("json")`, i.e. the field carries the json tag
string directly ("" when absent).
-/

namespace Plz

/-- The `reflect.Kind` constants used by the encoder. -/
inductive GoKind : Type where
  | int8K | uint8K | int16K | uint16K | int32K | uint32K | int64K | intK | uint64K | uintK
  | float32K | float64K | stringK | ptrK | sliceK | arrayK | structK | mapK | interfaceK
  | chanK | funcK | unsafePointerK
deriving DecidableEq

mutual

/-- A Go runtime type: printed name, whether it implements `error`,
whether it implements `json.Marshaler`, and its structural shape. -/
inductive GoType : Type where
  | mk (name : String) (implErr : Bool) (implMarshaler : Bool) (shape : GoShape)

/-- The structural shape of a Go type, one constructor per `reflect.Kind`
that the encoder distinguishes. -/
inductive GoShape : Type where
  | int8K | uint8K | int16K | uint16K | int32K | uint32K | int64K | intK | uint64K | uintK
  | float32K | float64K | stringK
  | ptrK (elem : GoType)
  | sliceK (elem : GoType)
  | arrayK (len : Nat) (elem : GoType)
  | structK (fields : GoFieldList)
  | mapK (key : GoType) (elem : GoType)
  | interfaceK (numMethod : Nat)
  | chanK
  | funcK
  | unsafePointerK

/-- The declaration-ordered field list of a struct type: each field has a
name, the value of its `json` struct tag ("" when absent), its byte
offset, and its type. -/
inductive GoFieldList : Type where
  | nil
  | cons (fname : String) (tag : String) (offset : Nat) (ftyp : GoType) (rest : GoFieldList)

end

deriving instance DecidableEq for GoType

/-- The `reflect.Kind` of a type (`valType.Kind()`). -/
def GoType.kind : GoType → GoKind
  | .mk _ _ _ .int8K => .int8K
  | .mk _ _ _ .uint8K => .uint8K
  | .mk _ _ _ .int16K => .int16K
  | .mk _ _ _ .uint16K => .uint16K
  | .mk _ _ _ .int32K => .int32K
  | .mk _ _ _ .uint32K => .uint32K
  | .mk _ _ _ .int64K => .int64K
  | .mk _ _ _ .intK => .intK
  | .mk _ _ _ .uint64K => .uint64K
  | .mk _ _ _ .uintK => .uintK
  | .mk _ _ _ .float32K => .float32K
  | .mk _ _ _ .float64K => .float64K
  | .mk _ _ _ .stringK => .stringK
  | .mk _ _ _ (.ptrK _) => .ptrK
  | .mk _ _ _ (.sliceK _) => .sliceK
  | .mk _ _ _ (.arrayK _ _) => .arrayK
  | .mk _ _ _ (.structK _) => .structK
  | .mk _ _ _ (.mapK _ _) => .mapK
  | .mk _ _ _ (.interfaceK _) => .interfaceK
  | .mk _ _ _ .chanK => .chanK
  | .mk _ _ _ .funcK => .funcK
  | .mk _ _ _ .unsafePointerK => .unsafePointerK

/-- Whether the type implements the `error` interface (`valType.Implements(errorType)`). -/
def GoType.implErr : GoType → Bool
  | .mk _ ie _ _ => ie

/-- Whether the type implements `json.Marshaler` (`valType.Implements(jsonMarshalerType)`). -/
def GoType.implMarshaler : GoType → Bool
  | .mk _ _ im _ => im

/-- The printed name of the type (`valType.String()`). -/
def GoType.name : GoType → String
  | .mk nm _ _ _ => nm

/-- The structural shape of a type. -/
def GoType.shape : GoType → GoShape
  | .mk _ _ _ sh => sh

/-- The key type of a map type (`valType.Key()`). -/
def GoType.keyType : GoType → GoType
  | .mk _ _ _ (.mapK k _) => k
  | t => t

/-- The element type (`valType.Elem()`) of a pointer, slice, array or map type. -/
def GoType.elemType : GoType → GoType
  | .mk _ _ _ (.ptrK e) => e
  | .mk _ _ _ (.sliceK e) => e
  | .mk _ _ _ (.arrayK _ e) => e
  | .mk _ _ _ (.mapK _ e) => e
  | t => t

mutual

/-- The in-memory size of a value of the type (`valType.Size()`), modelled
for the 64-bit Go platform; struct sizes ignore alignment padding. -/
def GoType.size : GoType → Nat
  | .mk _ _ _ sh => sh.sizeSh

def GoShape.sizeSh : GoShape → Nat
  | .int8K | .uint8K => 1
  | .int16K | .uint16K => 2
  | .int32K | .uint32K | .float32K => 4
  | .int64K | .intK | .uint64K | .uintK | .float64K => 8
  | .stringK => 16
  | .ptrK _ => 8
  | .sliceK _ => 24
  | .arrayK n e => n * e.size
  | .structK flds => flds.sizeSum
  | .mapK _ _ => 8
  | .interfaceK _ => 16
  | .chanK | .funcK | .unsafePointerK => 8

def GoFieldList.sizeSum : GoFieldList → Nat
  | .nil => 0
  | .cons _ _ _ ty rest => ty.size + rest.sizeSum

end

/-- The `uint8` (`byte`) type. -/
def tUint8 : GoType := .mk "uint8" false false .uint8K

/-- `var bytesType = reflect.TypeOf([]byte(nil))`: the unnamed slice-of-byte type. -/
def bytesType : GoType := .mk "[]uint8" false false (.sliceK tUint8)

/-- `isOnePtr` from `encoder.go`: a type is "one pointer" when it is of
pointer kind, or a struct whose single field has pointer kind, or a
one-element array whose element has pointer kind. -/
def isOnePtr : GoType → Bool
  | .mk _ _ _ (.ptrK _) => true
  | .mk _ _ _ (.structK (.cons _ _ _ (.mk _ _ _ (.ptrK _)) .nil)) => true
  | .mk _ _ _ (.arrayK 1 (.mk _ _ _ (.ptrK _))) => true
  | _ => false

/-- `unicode.IsUpper(rune(field.Name[0]))`, modelled for ASCII identifiers;
an empty name has no upper-case first letter. -/
def isUpperFirst (s : String) : Bool :=
  match s.data with
  | [] => false
  | c :: _ => c.isUpper

/-- The first comma-separated segment of a tag, i.e. `strings.Split(tag, ",")[0]`. -/
def firstSegment : List Char → List Char
  | [] => []
  | c :: cs => if c = ',' then [] else c :: firstSegment cs

/-- `getFieldName` from `encoder.go`: the JSON key for a struct field, or
"" when the field is to be omitted. -/
def getFieldName (fieldName : String) (jsonTag : String) : String :=
  if !(isUpperFirst fieldName) then ""
  else if jsonTag = "" then fieldName
  else
    let seg : String := ⟨firstSegment jsonTag.data⟩
    if seg = "-" then ""
    else if seg = "" then fieldName
    else seg

mutual

/-- The encoder object graph built by `encoder.go`: one constructor per
encoder struct of the source, carrying exactly the data the source stores
in that struct.  `emptyInterface` sample headers are modelled by the
`GoType` whose sample value they hold. -/
inductive Encoder : Type where
  | bytesE
  | int8E | uint8E | int16E | uint16E | int32E | uint32E | int64E | uint64E
  | lossyFloat64E | lossyFloat32E | stringE
  | ptrE (elemEncoder : Encoder)
  | errorE (sampleInterface : GoType)
  | jsonMarshalerE (sampleInterface : GoType)
  | sliceE (elemEncoder : Encoder) (elemSize : Nat)
  | arrayE (elemEncoder : Encoder) (elemSize : Nat) (length : Nat)
  | structE (fields : SEFields)
  | mapE (keyEncoder : Encoder) (sampleInterface : GoType)
  | mapStringKeyE (keyEncoder : Encoder)
  | mapInterfaceKeyE
  | mapNumberKeyE (keyEncoder : Encoder)
  | nonEmptyInterfaceE
  | emptyInterfaceE
  | unsupportedE (msg : String)
  | onePtrInterfaceE (elemEncoder : Encoder)

/-- The `[]structEncoderField` of a struct encoder: byte offset, literal
key text (comma, quoted key and colon), and the field's encoder. -/
inductive SEFields : Type where
  | nil
  | cons (offset : Nat) (keyText : String) (encoder : Encoder) (rest : SEFields)

end

deriving instance DecidableEq for Encoder

/-- Length of a struct-encoder field list (`len(fields)`). -/
def SEFields.length : SEFields → Nat
  | .nil => 0
  | .cons _ _ _ rest => rest.length + 1

/-- Concatenation of struct-encoder field lists (`append`). -/
def SEFields.append : SEFields → SEFields → SEFields
  | .nil, ys => ys
  | .cons o p e rest, ys => .cons o p e (rest.append ys)

mutual

/-- `encoderOf` from `encoder.go`: the identity check against `bytesType`,
the two interface checks, then the kind switch.  The bodies of
`encoderOfStruct` and `encoderOfMap` (including the key-encoder
classification of `_encoderOfMapKey`) are inlined at their call sites; the
standalone definitions below are proved to agree.  The source memoizes map
key encoders in `mapKeyEncoderCache`; this model gives the first-encounter
(cache-miss) semantics of that cache. -/
def encoderOf (pfx : String) (t : GoType) : Encoder :=
  if t = bytesType then .bytesE
  else if t.implErr = true ∧ t.kind = GoKind.ptrK then .ptrE (.errorE t)
  else if t.implMarshaler = true ∧ t.kind ≠ GoKind.ptrK then .jsonMarshalerE t
  else
    match t with
    | .mk _ _ _ .int8K => .int8E
    | .mk _ _ _ .uint8K => .uint8E
    | .mk _ _ _ .int16K => .int16E
    | .mk _ _ _ .uint16K => .uint16E
    | .mk _ _ _ .int32K => .int32E
    | .mk _ _ _ .uint32K => .uint32E
    | .mk _ _ _ .int64K | .mk _ _ _ .intK => .int64E
    | .mk _ _ _ .uint64K | .mk _ _ _ .uintK => .uint64E
    | .mk _ _ _ .float64K => .lossyFloat64E
    | .mk _ _ _ .float32K => .lossyFloat32E
    | .mk _ _ _ .stringK => .stringE
    | .mk _ _ _ (.ptrK elem) => .ptrE (encoderOf (pfx ++ " [ptrElem]") elem)
    | .mk _ _ _ (.sliceK elem) => .sliceE (encoderOf (pfx ++ " [sliceElem]") elem) elem.size
    | .mk _ _ _ (.arrayK n elem) => .arrayE (encoderOf (pfx ++ " [sliceElem]") elem) elem.size n
    | .mk _ _ _ (.structK flds) => .structE (encoderOfStructFields flds .nil)
    | .mk nm ie im (.mapK keyT elemT) =>
        let keyEnc0 := encoderOf (pfx ++ " [mapKey]") keyT
        let keyEncoder :=
          if keyT.kind = GoKind.stringK ∨ keyT = bytesType then Encoder.mapStringKeyE keyEnc0
          else if keyT.kind = GoKind.interfaceK then Encoder.mapInterfaceKeyE
          else Encoder.mapNumberKeyE keyEnc0
        let elemEnc0 := encoderOf (pfx ++ " [mapElem]") elemT
        let _elemEncoder :=
          if isOnePtr elemT then Encoder.onePtrInterfaceE elemEnc0 else elemEnc0
        Encoder.mapE keyEncoder (.mk nm ie im (.mapK keyT elemT))
    | .mk _ _ _ (.interfaceK n) =>
        if n ≠ 0 then .nonEmptyInterfaceE else .emptyInterfaceE
    | .mk nm _ _ .chanK =>
        .unsupportedE ("\"can not encode " ++ nm ++ " " ++ pfx ++ " to json\"")
    | .mk nm _ _ .funcK =>
        .unsupportedE ("\"can not encode " ++ nm ++ " " ++ pfx ++ " to json\"")
    | .mk nm _ _ .unsafePointerK =>
        .unsupportedE ("\"can not encode " ++ nm ++ " " ++ pfx ++ " to json\"")

/-- The field-collecting loop of `encoderOfStruct`: fields whose
`getFieldName` is "" are skipped; a retained field's key text gets a
leading comma exactly when some field was already retained; the field's
encoder is built with the key text plus " ." plus the key as the
structural-path argument (the loop-local `prefix` shadows the outer one in
the source). -/
def encoderOfStructFields : GoFieldList → SEFields → SEFields
  | .nil, built => built
  | .cons nm tag off ty rest, built =>
      let name := getFieldName nm tag
      if name = "" then encoderOfStructFields rest built
      else
        let p := (if built.length ≠ 0 then "," else "") ++ "\"" ++ name ++ "\":"
        encoderOfStructFields rest
          (built.append (.cons off p (encoderOf (p ++ " ." ++ name) ty) .nil))

end

/-- `encoderOfStruct` from `encoder.go` (its `prefix` parameter is shadowed
inside the loop and therefore unused). -/
def encoderOfStruct (_pfx : String) (flds : GoFieldList) : Encoder :=
  .structE (encoderOfStructFields flds .nil)

/-- `_encoderOfMapKey` from `encoder.go`: classify the key encoder as
string-like, interface (dynamic) or numeric.  The source's cached wrapper
`encoderOfMapKey` stores this result in `mapKeyEncoderCache` on first
encounter; this is that first-encounter result. -/
def encoderOfMapKey (pfx : String) (keyType : GoType) : Encoder :=
  let keyEncoder := encoderOf (pfx ++ " [mapKey]") keyType
  if keyType.kind = GoKind.stringK ∨ keyType = bytesType then .mapStringKeyE keyEncoder
  else if keyType.kind = GoKind.interfaceK then .mapInterfaceKeyE
  else .mapNumberKeyE keyEncoder

/-- `encoderOfMap` from `encoder.go`: builds the key encoder and the
element encoder (wrapping the latter in the one-pointer interface wrapper
when the element type is one-pointer), then returns a `mapEncoder` holding
only the key encoder and the sample map object; the element encoder is not
stored in the result. -/
def encoderOfMap (pfx : String) (valType : GoType) : Encoder :=
  let keyEncoder := encoderOfMapKey pfx valType.keyType
  let elemType := valType.elemType
  let elemEnc0 := encoderOf (pfx ++ " [mapElem]") elemType
  let _elemEncoder := if isOnePtr elemType then Encoder.onePtrInterfaceE elemEnc0 else elemEnc0
  Encoder.mapE keyEncoder valType

/-- The kind-switch part of `encoderOf` (its body after the three special
cases), as a standalone function: generic structural encoding. -/
def encoderOfKind (pfx : String) (t : GoType) : Encoder :=
  match t with
  | .mk _ _ _ .int8K => .int8E
  | .mk _ _ _ .uint8K => .uint8E
  | .mk _ _ _ .int16K => .int16E
  | .mk _ _ _ .uint16K => .uint16E
  | .mk _ _ _ .int32K => .int32E
  | .mk _ _ _ .uint32K => .uint32E
  | .mk _ _ _ .int64K | .mk _ _ _ .intK => .int64E
  | .mk _ _ _ .uint64K | .mk _ _ _ .uintK => .uint64E
  | .mk _ _ _ .float64K => .lossyFloat64E
  | .mk _ _ _ .float32K => .lossyFloat32E
  | .mk _ _ _ .stringK => .stringE
  | .mk _ _ _ (.ptrK elem) => .ptrE (encoderOf (pfx ++ " [ptrElem]") elem)
  | .mk _ _ _ (.sliceK elem) => .sliceE (encoderOf (pfx ++ " [sliceElem]") elem) elem.size
  | .mk _ _ _ (.arrayK n elem) => .arrayE (encoderOf (pfx ++ " [sliceElem]") elem) elem.size n
  | .mk _ _ _ (.structK flds) => .structE (encoderOfStructFields flds .nil)
  | .mk nm ie im (.mapK keyT elemT) =>
      let keyEnc0 := encoderOf (pfx ++ " [mapKey]") keyT
      let keyEncoder :=
        if keyT.kind = GoKind.stringK ∨ keyT = bytesType then Encoder.mapStringKeyE keyEnc0
        else if keyT.kind = GoKind.interfaceK then Encoder.mapInterfaceKeyE
        else Encoder.mapNumberKeyE keyEnc0
      let elemEnc0 := encoderOf (pfx ++ " [mapElem]") elemT
      let _elemEncoder :=
        if isOnePtr elemT then Encoder.onePtrInterfaceE elemEnc0 else elemEnc0
      Encoder.mapE keyEncoder (.mk nm ie im (.mapK keyT elemT))
  | .mk _ _ _ (.interfaceK n) =>
      if n ≠ 0 then .nonEmptyInterfaceE else .emptyInterfaceE
  | .mk nm _ _ .chanK =>
      .unsupportedE ("\"can not encode " ++ nm ++ " " ++ pfx ++ " to json\"")
  | .mk nm _ _ .funcK =>
      .unsupportedE ("\"can not encode " ++ nm ++ " " ++ pfx ++ " to json\"")
  | .mk nm _ _ .unsafePointerK =>
      .unsupportedE ("\"can not encode " ++ nm ++ " " ++ pfx ++ " to json\"")

/-- The `encoderCache` contents: a type-indexed association of built
encoders (`sync.Map` under sequential use). -/
def Cache : Type := List (GoType × Encoder)

/-- `encoderCache.Load`. -/
def cacheLoad : Cache → GoType → Option Encoder
  | [], _ => none
  | (t, e) :: rest, u => if t = u then some e else cacheLoad rest u

/-- `encoderCache.Store`. -/
def cacheStore (c : Cache) (t : GoType) (e : Encoder) : Cache := (t, e) :: c

/-- `EncoderOf` from `encoder.go`, with the cache state passed explicitly
(sequential semantics of the `sync.Map`): look up the type, else build,
wrap one-pointer types, store and return. -/
def EncoderOf (cache : Cache) (valType : GoType) : Encoder × Cache :=
  match cacheLoad cache valType with
  | some encoder => (encoder, cache)
  | none =>
      let encoder := encoderOf "" valType
      let encoder := if isOnePtr valType then Encoder.onePtrInterfaceE encoder else encoder
      (encoder, cacheStore cache valType encoder)

/-- A dynamically-typed Go value (`interface{}`): its concrete runtime
type and the raw word of its `emptyInterface` header. -/
structure GoValue : Type where
  typ : GoType
  word : Nat
deriving DecidableEq

/-- `PtrOf` from `encoder.go`: the raw handle of an `interface{}` value. -/
def PtrOf (val : GoValue) : Nat := val.word

/-- The `Encode` methods of the encoder structs other than
`unsupportedEncoder` are defined in source files outside this excerpt;
a method table abstracts over them. -/
def MethodTable : Type := Encoder → String → Nat → String

/-- Dynamic dispatch of `Encoder.Encode`: `unsupportedEncoder.Encode`
(from `encoder.go`: append the stored message to the buffer) is given by
the source; every other encoder dispatches to the method table. -/
def runEncode (mtable : MethodTable) (e : Encoder) (space : String) (ptr : Nat) : String :=
  match e with
  | .unsupportedE msg => space ++ msg
  | e => mtable e space ptr

/-- `jsonFormatter` from `formatter_json.go`: a field index and the
encoder stored at construction. -/
structure jsonFormatter : Type where
  idx : Nat
  encoder : Encoder

/-- `jsonFormatter.Format` from `formatter_json.go`:
`formatter.encoder.Encode(space, jsonfmt.PtrOf(kv[formatter.idx]))`.
The unchecked indexing of `kv` is the Option: `none` models the
out-of-bounds panic of the concrete program. -/
def jsonFormatter.Format (mtable : MethodTable) (formatter : jsonFormatter)
    (space : String) (kv : List GoValue) : Option String :=
  (kv.get? formatter.idx).map fun v => runEncode mtable formatter.encoder space (PtrOf v)

/-- `StopSignal` from `unbounded_executor.go`. -/
def StopSignal : String := "STOP!"

/-- A recovered `interface{}` value: `nil`, a string, or any other value. -/
inductive GoVal : Type where
  | nil
  | str (s : String)
  | other (tag : Nat)
deriving DecidableEq

/-- How the handler passed to `UnboundedExecutor.Go` exited: normal
return, or a panic carrying a value. -/
inductive HandlerOutcome : Type where
  | normal
  | panicked (v : GoVal)

/-- The executor's `activeGoroutines` map; a missing key reads as 0, as
for a Go map. -/
def Counts : Type := List (String × Int)

/-- Read of `activeGoroutines[startFrom]` (0 when absent). -/
def countsGet : Counts → String → Int
  | [], _ => 0
  | (k, n) :: rest, u => if k = u then n else countsGet rest u

/-- `activeGoroutines[startFrom] += d`. -/
def countsAdd (m : Counts) (k : String) (d : Int) : Counts := (k, countsGet m k + d) :: m

/-- The bookkeeping of `UnboundedExecutor.Go` before the goroutine starts:
`executor.activeGoroutines[startFrom] += 1`. -/
def UnboundedExecutor.Go (counts : Counts) (startFrom : String) : Counts :=
  countsAdd counts startFrom 1

/-- What `recover()` returns inside the deferred function: `nil` after a
normal return of the handler, the panic value otherwise. -/
def recoveredOf : HandlerOutcome → GoVal
  | .normal => .nil
  | .panicked v => v

/-- The deferred function of the goroutine spawned by
`UnboundedExecutor.Go`, after `recover()` has produced `recovered`: emit a
fatal event iff the recovered value is non-nil and is not the `StopSignal`
string, then decrement the start site's active count.  The function is
total: the recovered panic is consumed and never re-raised. -/
def goDeferredExit (recovered : GoVal) (counts : Counts) (startFrom : String) :
    Bool × Counts :=
  (decide (recovered ≠ GoVal.nil ∧ recovered ≠ GoVal.str StopSignal),
   countsAdd counts startFrom (-1))

/-- A complete run of the spawned goroutine's body: the handler exits with
`outcome`, the deferred function recovers and cleans up.  Returns whether
a fatal event was emitted and the updated counts. -/
def goRoutineRun (outcome : HandlerOutcome) (counts : Counts) (startFrom : String) :
    Bool × Counts :=
  goDeferredExit (recoveredOf outcome) counts startFrom

mutual

/-- Whether `target` occurs as a component (reflexive-transitive
sub-object) of an encoder graph. -/
def Encoder.containsE (target : Encoder) : Encoder → Bool
  | .ptrE e1 => decide (Encoder.ptrE e1 = target) || Encoder.containsE target e1
  | .sliceE e1 s => decide (Encoder.sliceE e1 s = target) || Encoder.containsE target e1
  | .arrayE e1 s n => decide (Encoder.arrayE e1 s n = target) || Encoder.containsE target e1
  | .structE fs => decide (Encoder.structE fs = target) || SEFields.anyContain target fs
  | .mapE k smp => decide (Encoder.mapE k smp = target) || Encoder.containsE target k
  | .mapStringKeyE k => decide (Encoder.mapStringKeyE k = target) || Encoder.containsE target k
  | .mapNumberKeyE k => decide (Encoder.mapNumberKeyE k = target) || Encoder.containsE target k
  | .onePtrInterfaceE e1 =>
      decide (Encoder.onePtrInterfaceE e1 = target) || Encoder.containsE target e1
  | e => decide (e = target)

def SEFields.anyContain (target : Encoder) : SEFields → Bool
  | .nil => false
  | .cons _ _ e rest => Encoder.containsE target e || SEFields.anyContain target rest

end

/-- Spec-side field rule, following the claim's words: a field is retained
iff its name begins with an upper-case letter and its json tag's first
comma-separated segment is not exactly "-"; the retained field's JSON key
is the tag's first segment if present and non-empty, else the literal
field name. -/
def specFieldKey (fieldName : String) (jsonTag : String) : Option String :=
  let seg : String := ⟨firstSegment jsonTag.data⟩
  if isUpperFirst fieldName ∧ seg ≠ "-" then
    some (if seg ≠ "" then seg else fieldName)
  else none

/-- Spec-side struct field list, following the claim's words: retained
fields in declaration order, the i-th retained field's emitted key text
being `"key":` preceded by a comma for every retained field after the
first; omitted fields are absent entirely. -/
def specStructFields : Nat → GoFieldList → SEFields
  | _, .nil => .nil
  | i, .cons nm tag off ty rest =>
      match specFieldKey nm tag with
      | none => specStructFields i rest
      | some key =>
          let p := (if i = 0 then "" else ",") ++ "\"" ++ key ++ "\":"
          .cons off p (encoderOf (p ++ " ." ++ key) ty) (specStructFields (i + 1) rest)

/-- Spec-side one-pointer predicate, following the claim's words: the type
is of pointer kind, or is a struct with exactly one field whose type is of
pointer kind, or is an array of length 1 whose element type is of pointer
kind. -/
def isOnePtrSpec (t : GoType) : Prop :=
  t.kind = GoKind.ptrK ∨
  (∃ nm tag off ft, t.shape = GoShape.structK (.cons nm tag off ft .nil) ∧
    ft.kind = GoKind.ptrK) ∨
  (∃ et, t.shape = GoShape.arrayK 1 et ∧ et.kind = GoKind.ptrK)

theorem SEFields.append_nil : (xs : SEFields) → xs.append .nil = xs
  | .nil => rfl
  | .cons o p e rest => by simp [SEFields.append, SEFields.append_nil rest]

theorem SEFields.append_assoc : (xs : SEFields) → (ys zs : SEFields) →
    (xs.append ys).append zs = xs.append (ys.append zs)
  | .nil, _, _ => rfl
  | .cons o p e rest, ys, zs => by simp [SEFields.append, SEFields.append_assoc rest ys zs]

theorem SEFields.length_append : (xs ys : SEFields) →
    (xs.append ys).length = xs.length + ys.length
  | .nil, ys => by simp [SEFields.append, SEFields.length]
  | .cons o p e rest, ys => by
      simp [SEFields.append, SEFields.length, SEFields.length_append rest ys]
      omega

theorem isUpperFirst_ne_empty (s : String) (h : isUpperFirst s = true) : s ≠ "" := by
  intro hs
  subst hs
  exact absurd h (by decide)

theorem specFieldKey_eq_getFieldName (nm tag : String) :
    specFieldKey nm tag
      = if getFieldName nm tag = "" then none else some (getFieldName nm tag) := by
  unfold specFieldKey getFieldName
  by_cases hu : isUpperFirst nm = true
  · have hnm : nm ≠ "" := isUpperFirst_ne_empty nm hu
    by_cases ht : tag = ""
    · subst ht
      simp [hu, hnm, show (⟨firstSegment "".data⟩ : String) = "" from rfl]
    · by_cases h1 : (⟨firstSegment tag.data⟩ : String) = "-"
      · simp [hu, ht, h1]
      · by_cases h2 : (⟨firstSegment tag.data⟩ : String) = ""
        · simp [hu, ht, h1, h2, hnm]
        · simp [hu, ht, h1, h2]
  · simp only [Bool.not_eq_true] at hu
    simp [hu]

theorem comma_if_eq (n : Nat) : (if n ≠ 0 then "," else "") = (if n = 0 then "" else ",") := by
  by_cases h : n = 0 <;> simp [h]

theorem encoderOfStructFields_eq_spec : (flds : GoFieldList) → (built : SEFields) →
    encoderOfStructFields flds built = built.append (specStructFields built.length flds)
  | .nil, built => by simp [encoderOfStructFields, specStructFields, SEFields.append_nil]
  | .cons nm tag off ty rest, built => by
      have ih := encoderOfStructFields_eq_spec rest
      have hk := specFieldKey_eq_getFieldName nm tag
      by_cases h : getFieldName nm tag = ""
      · rw [if_pos h] at hk
        rw [encoderOfStructFields, specStructFields, hk]
        rw [if_pos h]
        exact ih built
      · rw [if_neg h] at hk
        rw [encoderOfStructFields, specStructFields, hk]
        rw [if_neg h]
        rw [ih]
        rw [SEFields.length_append]
        rw [SEFields.append_assoc]
        simp only [SEFields.append, SEFields.length, comma_if_eq, Nat.zero_add]

/-- C1: the struct encoder built by `encoderOfStruct` retains exactly the
fields whose name begins with an upper-case letter and whose json tag's
first comma-separated segment is not exactly "-", in declaration order;
each retained field's JSON key is the tag's first segment if present and
non-empty, else the literal field name; the emitted key text is `"key":`
preceded by a comma for every retained field after the first; omitted
fields are absent from the field list entirely (`specFieldKey` and
`specStructFields` state this rule in the claim's words). -/
theorem claim_C1 (pfx : String) (flds : GoFieldList) :
    encoderOfStruct pfx flds = Encoder.structE (specStructFields 0 flds) := by
  unfold encoderOfStruct
  rw [encoderOfStructFields_eq_spec]
  rfl

theorem encoderOf_fallthrough (pfx : String) (t : GoType)
    (h1 : t ≠ bytesType)
    (h2 : ¬(t.implErr = true ∧ t.kind = GoKind.ptrK))
    (h3 : ¬(t.implMarshaler = true ∧ t.kind ≠ GoKind.ptrK)) :
    encoderOf pfx t = encoderOfKind pfx t := by
  rw [encoderOf.eq_def]
  rw [if_neg h1, if_neg h2, if_neg h3]
  cases t with
  | mk nm ie im sh => cases sh <;> rfl

/-- Sample types used to instantiate the theorems below. -/
def tInt : GoType := .mk "int" false false .intK

def tInt64 : GoType := .mk "int64" false false .int64K

def tString : GoType := .mk "string" false false .stringK

def tChanInt : GoType := .mk "chan int" false false .chanK

def tErrPtr : GoType := .mk "*sampleErr" true false (.ptrK tInt)

def tMarshalInt : GoType := .mk "sampleMarshaler" false true .intK

def tErrChan : GoType := .mk "sampleErrChan" true false .chanK

def tMarshalPtr : GoType := .mk "*sampleMarshalerPtr" false true (.ptrK tInt)

def tMarshalChan : GoType := .mk "sampleMarshalerChan" false true .chanK

def tMapStrInt64 : GoType := .mk "map[string]int64" false false (.mapK tString tInt64)

def tPtrInt : GoType := .mk "*int" false false (.ptrK tInt)

/-- C2: `encoderOf` applies its classification first-match-wins: the exact
`[]byte` type gets the bytes encoder; a pointer-kind type implementing
`error` gets a pointer encoder wrapping an error encoder; a
non-pointer-kind type implementing `json.Marshaler` gets the marshaler
encoder; otherwise (in particular for a non-pointer type implementing
`error` and for a pointer type implementing `json.Marshaler`) dispatch
falls through to the structural kind switch `encoderOfKind`. -/
theorem claim_C2 (pfx : String) (t : GoType) :
    (t = bytesType → encoderOf pfx t = Encoder.bytesE) ∧
    (t.implErr = true → t.kind = GoKind.ptrK →
      encoderOf pfx t = Encoder.ptrE (Encoder.errorE t)) ∧
    (t ≠ bytesType → t.implMarshaler = true → t.kind ≠ GoKind.ptrK →
      encoderOf pfx t = Encoder.jsonMarshalerE t) ∧
    (t ≠ bytesType → ¬(t.implErr = true ∧ t.kind = GoKind.ptrK) →
      ¬(t.implMarshaler = true ∧ t.kind ≠ GoKind.ptrK) →
      encoderOf pfx t = encoderOfKind pfx t) ∧
    (t.implErr = true → t.kind ≠ GoKind.ptrK → t.implMarshaler = false →
      encoderOf pfx t = encoderOfKind pfx t) ∧
    (t.implMarshaler = true → t.kind = GoKind.ptrK → t.implErr = false →
      encoderOf pfx t = encoderOfKind pfx t) := by
  refine ⟨?_, ?_, ?_, ?_, ?_, ?_⟩
  · intro h
    rw [encoderOf.eq_def, if_pos h]
  · intro he hk
    have h1 : t ≠ bytesType := by
      intro hb; rw [hb] at hk; exact absurd hk (by decide)
    rw [encoderOf.eq_def, if_neg h1, if_pos ⟨he, hk⟩]
  · intro h1 hm hk
    rw [encoderOf.eq_def, if_neg h1, if_neg (fun hc => hk hc.2), if_pos ⟨hm, hk⟩]
  · exact encoderOf_fallthrough pfx t
  · intro he hk hm
    refine encoderOf_fallthrough pfx t ?_ (fun hc => hk hc.2)
      (fun hc => by rw [hm] at hc; exact Bool.noConfusion hc.1)
    intro hb; rw [hb] at he; exact absurd he (by decide)
  · intro hm hk he
    refine encoderOf_fallthrough pfx t ?_
      (fun hc => by rw [he] at hc; exact Bool.noConfusion hc.1) (fun hc => hc.2 hk)
    intro hb; rw [hb] at hk; exact absurd hk (by decide)

theorem claim_C2_witness :
    encoderOf "" bytesType = Encoder.bytesE ∧
    encoderOf "" tErrPtr = Encoder.ptrE (Encoder.errorE tErrPtr) ∧
    encoderOf "" tMarshalInt = Encoder.jsonMarshalerE tMarshalInt ∧
    encoderOf "" tInt = encoderOfKind "" tInt ∧
    encoderOf "" tErrChan = encoderOfKind "" tErrChan ∧
    encoderOf "" tMarshalPtr = encoderOfKind "" tMarshalPtr :=
  ⟨(claim_C2 "" bytesType).1 rfl,
   (claim_C2 "" tErrPtr).2.1 rfl rfl,
   (claim_C2 "" tMarshalInt).2.2.1 (by decide) rfl (by decide),
   (claim_C2 "" tInt).2.2.2.1 (by decide) (by decide) (by decide),
   (claim_C2 "" tErrChan).2.2.2.2.1 rfl (by decide) rfl,
   (claim_C2 "" tMarshalPtr).2.2.2.2.2 rfl rfl rfl⟩

theorem encoderOf_map_arm (pfx nm : String) (ie : Bool) (keyT elemT : GoType) :
    encoderOf pfx (.mk nm ie false (.mapK keyT elemT))
      = encoderOfMap pfx (.mk nm ie false (.mapK keyT elemT)) := by
  have h1 : (GoType.mk nm ie false (.mapK keyT elemT)) ≠ bytesType := by
    intro hb
    simp [bytesType] at hb
  have h2 : ¬((GoType.mk nm ie false (.mapK keyT elemT)).implErr = true ∧
      (GoType.mk nm ie false (.mapK keyT elemT)).kind = GoKind.ptrK) := by
    rintro ⟨-, hk⟩
    simp [GoType.kind] at hk
  have h3 : ¬((GoType.mk nm ie false (.mapK keyT elemT)).implMarshaler = true ∧
      (GoType.mk nm ie false (.mapK keyT elemT)).kind ≠ GoKind.ptrK) := by
    rintro ⟨hm, -⟩
    simp [GoType.implMarshaler] at hm
  rw [encoderOf_fallthrough pfx _ h1 h2 h3]
  rfl

/-- C3 (amended): the encoder returned by `encoderOfMap` for a map type
consists of the key-encoding strategy for the map's key type (string-like,
dynamic/interface, or numeric, as classified by `encoderOfMapKey`) and a
sample of the map type; the value encoder built from the element type is
discarded and is not a component of the returned encoder. -/
theorem claim_C3 (pfx nm : String) (ie im : Bool) (keyT elemT : GoType) :
    encoderOfMap pfx (GoType.mk nm ie im (.mapK keyT elemT))
      = Encoder.mapE (encoderOfMapKey pfx keyT) (GoType.mk nm ie im (.mapK keyT elemT)) ∧
    (keyT.kind = GoKind.stringK ∨ keyT = bytesType →
      encoderOfMapKey pfx keyT = .mapStringKeyE (encoderOf (pfx ++ " [mapKey]") keyT)) ∧
    (¬(keyT.kind = GoKind.stringK ∨ keyT = bytesType) → keyT.kind = GoKind.interfaceK →
      encoderOfMapKey pfx keyT = .mapInterfaceKeyE) ∧
    (¬(keyT.kind = GoKind.stringK ∨ keyT = bytesType) → keyT.kind ≠ GoKind.interfaceK →
      encoderOfMapKey pfx keyT = .mapNumberKeyE (encoderOf (pfx ++ " [mapKey]") keyT)) := by
  refine ⟨rfl, ?_, ?_, ?_⟩
  · intro h
    unfold encoderOfMapKey
    rw [if_pos h]
  · intro h hi
    unfold encoderOfMapKey
    rw [if_neg h, if_pos hi]
  · intro h hi
    unfold encoderOfMapKey
    rw [if_neg h, if_neg hi]

theorem claim_C3_witness :
    encoderOfMap "" tMapStrInt64 = Encoder.mapE (encoderOfMapKey "" tString) tMapStrInt64 ∧
    encoderOfMapKey "" tString = .mapStringKeyE (encoderOf ("" ++ " [mapKey]") tString) ∧
    encoderOfMapKey "" tInt64 = .mapNumberKeyE (encoderOf ("" ++ " [mapKey]") tInt64) :=
  ⟨(claim_C3 "" "map[string]int64" false false tString tInt64).1,
   (claim_C3 "" "map[string]int64" false false tString tInt64).2.1 (Or.inl rfl),
   (claim_C3 "" "map[int64]string" false false tInt64 tString).2.2.2 (by decide) (by decide)⟩

/-- C3 counterexample: for `map[string]int64` the value encoder built from
the element type (`int64Encoder`; the element type is not one-pointer, so
no collapsing applies) is not a component of the encoder returned by
`encoderOfMap`, refuting the claim that the map encoder contains the value
encoder. -/
theorem claim_C3_counterexample :
    Encoder.containsE
      (if isOnePtr tInt64 then Encoder.onePtrInterfaceE (encoderOf ("" ++ " [mapElem]") tInt64)
       else encoderOf ("" ++ " [mapElem]") tInt64)
      (encoderOfMap "" tMapStrInt64) = false := by decide

theorem EncoderOf_hit (cache : Cache) (t : GoType) (e : Encoder)
    (h : cacheLoad cache t = some e) : EncoderOf cache t = (e, cache) := by
  unfold EncoderOf
  rw [h]

theorem cacheLoad_store (c : Cache) (t : GoType) (e : Encoder) :
    cacheLoad (cacheStore c t e) t = some e := by
  unfold cacheStore cacheLoad
  rw [if_pos rfl]

theorem EncoderOf_miss_store (cache : Cache) (t : GoType) (h : cacheLoad cache t = none) :
    (EncoderOf cache t).2 = cacheStore cache t (EncoderOf cache t).1 ∧
    (EncoderOf cache t).1
      = (if isOnePtr t then Encoder.onePtrInterfaceE (encoderOf "" t) else encoderOf "" t) := by
  unfold EncoderOf
  rw [h]
  exact ⟨rfl, rfl⟩

/-- C4: with the cache state explicit (sequential semantics), a first call
of `EncoderOf` at a type builds the encoder and stores it under the type,
and every later call returns exactly the stored encoder with the cache
unchanged, so each distinct type is compiled at most once and a stored
entry is never replaced or mutated. -/
theorem claim_C4 (cache : Cache) (t : GoType) :
    (∀ e, cacheLoad cache t = some e → EncoderOf cache t = (e, cache)) ∧
    (cacheLoad cache t = none →
      cacheLoad (EncoderOf cache t).2 t = some (EncoderOf cache t).1 ∧
      (EncoderOf cache t).1
        = (if isOnePtr t then Encoder.onePtrInterfaceE (encoderOf "" t) else encoderOf "" t) ∧
      EncoderOf (EncoderOf cache t).2 t = ((EncoderOf cache t).1, (EncoderOf cache t).2)) := by
  refine ⟨fun e he => EncoderOf_hit cache t e he, fun hn => ?_⟩
  obtain ⟨hstore, hbuild⟩ := EncoderOf_miss_store cache t hn
  have hload : cacheLoad (EncoderOf cache t).2 t = some (EncoderOf cache t).1 := by
    rw [hstore]
    exact cacheLoad_store cache t _
  exact ⟨hload, hbuild, EncoderOf_hit _ t _ hload⟩

theorem claim_C4_witness :
    EncoderOf [(tInt, Encoder.int64E)] tInt = (Encoder.int64E, [(tInt, Encoder.int64E)]) ∧
    (cacheLoad (EncoderOf [] tInt).2 tInt = some (EncoderOf [] tInt).1 ∧
     (EncoderOf [] tInt).1
       = (if isOnePtr tInt then Encoder.onePtrInterfaceE (encoderOf "" tInt)
          else encoderOf "" tInt) ∧
     EncoderOf (EncoderOf [] tInt).2 tInt = ((EncoderOf [] tInt).1, (EncoderOf [] tInt).2)) :=
  ⟨(claim_C4 [(tInt, Encoder.int64E)] tInt).1 Encoder.int64E rfl,
   (claim_C4 [] tInt).2 rfl⟩

set_option maxHeartbeats 2000000 in
theorem isOnePtr_iff (t : GoType) : isOnePtr t = true ↔ isOnePtrSpec t := by
  obtain ⟨nm, ie, im, sh⟩ := t
  cases sh <;> try simp [isOnePtr, isOnePtrSpec, GoType.kind, GoType.shape]
  case structK flds =>
    cases flds with
    | nil => simp [isOnePtr, isOnePtrSpec, GoType.kind, GoType.shape]
    | cons fn ftag foff fty rest =>
        obtain ⟨n2, e2, m2, sh2⟩ := fty
        cases rest with
        | nil =>
            cases sh2 <;>
              simp [isOnePtr, isOnePtrSpec, GoType.kind, GoType.shape] <;>
              first
                | exact ⟨fn, ftag, foff, _, ⟨rfl, rfl, rfl, rfl⟩, rfl⟩
                | (intros; subst_vars; simp [GoType.kind])
        | cons a b c d r2 => simp [isOnePtr, isOnePtrSpec, GoType.kind, GoType.shape]
  case arrayK n e =>
    obtain ⟨n2, e2, m2, sh2⟩ := e
    match n with
    | 0 => cases sh2 <;> simp [isOnePtr, isOnePtrSpec, GoType.kind, GoType.shape]
    | 1 => cases sh2 <;> simp [isOnePtr, isOnePtrSpec, GoType.kind, GoType.shape]
    | (m + 2) => cases sh2 <;> simp [isOnePtr, isOnePtrSpec, GoType.kind, GoType.shape]

/-- C6: `isOnePtr` holds exactly for pointer-kind types, single-field
structs whose field has pointer kind, and length-1 arrays whose element
has pointer kind (`isOnePtrSpec` states this in the claim's words); and on
a cache miss `EncoderOf` wraps the built encoder in the one-pointer
interface wrapper before caching exactly when `isOnePtr` holds. -/
theorem claim_C6 (t : GoType) (cache : Cache) (h : cacheLoad cache t = none) :
    (isOnePtr t = true ↔ isOnePtrSpec t) ∧
    (EncoderOf cache t).1
      = (if isOnePtr t then Encoder.onePtrInterfaceE (encoderOf "" t) else encoderOf "" t) ∧
    cacheLoad (EncoderOf cache t).2 t = some (EncoderOf cache t).1 := by
  obtain ⟨hstore, hbuild⟩ := EncoderOf_miss_store cache t h
  refine ⟨isOnePtr_iff t, hbuild, ?_⟩
  rw [hstore]
  exact cacheLoad_store cache t _

theorem claim_C6_witness :
    (isOnePtr tPtrInt = true ↔ isOnePtrSpec tPtrInt) ∧
    (EncoderOf [] tPtrInt).1
      = (if isOnePtr tPtrInt then Encoder.onePtrInterfaceE (encoderOf "" tPtrInt)
         else encoderOf "" tPtrInt) ∧
    cacheLoad (EncoderOf [] tPtrInt).2 tPtrInt = some (EncoderOf [] tPtrInt).1 :=
  claim_C6 tPtrInt [] rfl

/-- C5 (amended): for every type of function, channel, or unsafe-pointer
kind that does not implement `json.Marshaler`, `encoderOf` returns an
encoder whose `Encode`, for every buffer and value handle, appends exactly
the literal JSON string `"can not encode <type-name> <structural-path> to
json"` to the buffer and returns it; `runEncode` is total, so no error is
raised for the unsupported value. -/
theorem claim_C5 (pfx space : String) (ptr : Nat) (mtable : MethodTable) (t : GoType)
    (hk : t.kind = GoKind.chanK ∨ t.kind = GoKind.funcK ∨ t.kind = GoKind.unsafePointerK)
    (hm : t.implMarshaler = false) :
    runEncode mtable (encoderOf pfx t) space ptr
      = space ++ ("\"can not encode " ++ t.name ++ " " ++ pfx ++ " to json\"") := by
  obtain ⟨nm, ie, im, sh⟩ := t
  simp only [GoType.implMarshaler] at hm
  subst hm
  cases sh <;> (try (simp [GoType.kind] at hk)) <;>
    (rw [encoderOf.eq_def,
      if_neg (by simp [bytesType]),
      if_neg (by rintro ⟨-, hp⟩; simp [GoType.kind] at hp),
      if_neg (by rintro ⟨hmm, -⟩; exact Bool.noConfusion hmm)]
     rfl)

theorem claim_C5_witness :
    runEncode (fun _ s _ => s) (encoderOf "" tChanInt) "x" 0
      = "x" ++ ("\"can not encode " ++ tChanInt.name ++ " " ++ "" ++ " to json\"") :=
  claim_C5 "" "x" 0 (fun _ s _ => s) tChanInt (Or.inl rfl) rfl

/-- C5 counterexample: `tMarshalChan` is a channel-kind type that
implements `json.Marshaler`; `encoderOf` gives it the marshaler encoder,
not the unsupported-diagnostic encoder, so under a method table whose
marshaler encoder appends nothing the encoded output is not the
diagnostic string literal, refuting the claim for every channel-kind
type. -/
theorem claim_C5_counterexample :
    tMarshalChan.kind = GoKind.chanK ∧
    encoderOf "" tMarshalChan = Encoder.jsonMarshalerE tMarshalChan ∧
    runEncode (fun _ s _ => s) (encoderOf "" tMarshalChan) "" 0 = "" ∧
    ("" : String) ≠ "\"can not encode " ++ tMarshalChan.name ++ " " ++ "" ++ " to json\"" :=
  ⟨rfl, by decide, rfl, by decide⟩

theorem encoderOf_eq_bytesE_iff (p : String) (t : GoType) :
    encoderOf p t = Encoder.bytesE ↔ t = bytesType := by
  constructor
  · intro h
    by_contra hne
    rw [encoderOf.eq_def, if_neg hne] at h
    by_cases h2 : t.implErr = true ∧ t.kind = GoKind.ptrK
    · rw [if_pos h2] at h
      exact Encoder.noConfusion h
    · rw [if_neg h2] at h
      by_cases h3 : t.implMarshaler = true ∧ t.kind ≠ GoKind.ptrK
      · rw [if_pos h3] at h
        exact Encoder.noConfusion h
      · rw [if_neg h3] at h
        obtain ⟨nm, ie, im, sh⟩ := t
        cases sh <;> try exact Encoder.noConfusion h
        next nmeth =>
          by_cases h4 : nmeth ≠ 0 <;> simp [h4] at h
  · intro h
    rw [h, encoderOf.eq_def, if_pos rfl]

def tDefBytes : GoType := .mk "jsonfmt.sampleBytes" false false (.sliceK tUint8)

def tMarshalBytes : GoType := .mk "sampleMarshalerBytes" false true (.sliceK tUint8)

/-- C9 (amended): only the exact `[]byte` type ever receives the
byte-sequence encoder, and a distinct defined type with underlying
`[]byte` that does not implement `json.Marshaler` is classified by its
Slice kind: it gets a slice encoder over its `uint8` elements instead. -/
theorem claim_C9 (p nm : String) (ie : Bool)
    (h : GoType.mk nm ie false (.sliceK tUint8) ≠ bytesType) :
    (∀ q u, encoderOf q u = Encoder.bytesE ↔ u = bytesType) ∧
    (GoType.mk nm ie false (.sliceK tUint8)).kind = GoKind.sliceK ∧
    encoderOf p (GoType.mk nm ie false (.sliceK tUint8))
      = Encoder.sliceE Encoder.uint8E 1 := by
  refine ⟨fun q u => encoderOf_eq_bytesE_iff q u, rfl, ?_⟩
  rw [encoderOf.eq_def, if_neg h,
    if_neg (by rintro ⟨-, hp⟩; simp [GoType.kind] at hp),
    if_neg (by rintro ⟨hm, -⟩; exact Bool.noConfusion hm)]
  rfl

theorem claim_C9_witness :
    (∀ q u, encoderOf q u = Encoder.bytesE ↔ u = bytesType) ∧
    tDefBytes.kind = GoKind.sliceK ∧
    encoderOf "" tDefBytes = Encoder.sliceE Encoder.uint8E 1 :=
  claim_C9 "" "jsonfmt.sampleBytes" false (by decide)

/-- C9 counterexample: `tMarshalBytes` is a defined type with underlying
`[]byte` that implements `json.Marshaler`; `encoderOf` gives it the
marshaler encoder, not a slice encoder over its `uint8` elements, refuting
the claim for every defined type with underlying `[]byte`. -/
theorem claim_C9_counterexample :
    tMarshalBytes ≠ bytesType ∧
    tMarshalBytes.kind = GoKind.sliceK ∧
    encoderOf "" tMarshalBytes = Encoder.jsonMarshalerE tMarshalBytes ∧
    encoderOf "" tMarshalBytes ≠ Encoder.sliceE Encoder.uint8E 1 := by decide

/-- C7 (amended): the encoder invoked by `jsonFormatter.Format` is the
formatter's stored `encoder` field, fixed before the call; `Format`
applies it to a raw handle of the value at the formatter's field index and
performs no type resolution or registry lookup at format time. -/
theorem claim_C7 (mtable : MethodTable) (formatter : jsonFormatter) (space : String)
    (kv : List GoValue) (h : formatter.idx < kv.length) :
    jsonFormatter.Format mtable formatter space kv
      = some (runEncode mtable formatter.encoder space (PtrOf (kv.get ⟨formatter.idx, h⟩))) := by
  unfold jsonFormatter.Format
  rw [List.get?_eq_get h]
  rfl

def cexMTable : MethodTable := fun _ s _ => s

def cexFormatter : jsonFormatter := ⟨0, .unsupportedE "A"⟩

def cexValue : GoValue := ⟨tChanInt, 7⟩

theorem claim_C7_witness :
    jsonFormatter.Format cexMTable cexFormatter "" [cexValue]
      = some (runEncode cexMTable cexFormatter.encoder "" (PtrOf ([cexValue].get ⟨0, by decide⟩))) :=
  claim_C7 cexMTable cexFormatter "" [cexValue] (by decide)

/-- C7 counterexample: a formatter whose stored encoder is the unsupported
encoder with message "A", applied to an argument list whose value at the
formatter's index has channel type: `Format` appends "A", whereas the
encoder resolved from the value's concrete runtime type through the
registry would append the channel diagnostic, so the claim that the
invoked encoder is obtained at format time by resolving the runtime type
of `kv[idx]` in the registry is false. -/
theorem claim_C7_counterexample :
    jsonFormatter.Format cexMTable cexFormatter "" [cexValue]
      ≠ some (runEncode cexMTable (EncoderOf [] cexValue.typ).1 "" (PtrOf cexValue)) := by
  decide

/-- C10: `jsonFormatter.Format` indexes `kv` at the stored field index
with no bounds check: whenever `idx < kv.length` the out-of-bounds branch
(the `none` result) is unreachable and the encoder is applied to the
indexed value's raw handle, and whenever the precondition fails the
operation has no defined result (`none`, the concrete program's panic). -/
theorem claim_C10 (mtable : MethodTable) (formatter : jsonFormatter) (space : String)
    (kv : List GoValue) :
    (∀ h : formatter.idx < kv.length,
      jsonFormatter.Format mtable formatter space kv
        = some (runEncode mtable formatter.encoder space (PtrOf (kv.get ⟨formatter.idx, h⟩)))) ∧
    (kv.length ≤ formatter.idx → jsonFormatter.Format mtable formatter space kv = none) := by
  constructor
  · intro h
    unfold jsonFormatter.Format
    rw [List.get?_eq_get h]
    rfl
  · intro h
    unfold jsonFormatter.Format
    rw [List.get?_eq_none.2 h]
    rfl

theorem claim_C10_witness :
    jsonFormatter.Format cexMTable ⟨0, Encoder.int64E⟩ "" [cexValue]
      = some (runEncode cexMTable Encoder.int64E "" (PtrOf ([cexValue].get ⟨0, by decide⟩))) ∧
    jsonFormatter.Format cexMTable ⟨1, Encoder.int64E⟩ "" [cexValue] = none :=
  ⟨(claim_C10 cexMTable ⟨0, Encoder.int64E⟩ "" [cexValue]).1 (by decide),
   (claim_C10 cexMTable ⟨1, Encoder.int64E⟩ "" [cexValue]).2 (by decide)⟩

/-- C8: for the goroutine body spawned by `UnboundedExecutor.Go`, a panic
of the handler is recovered (the exit function is total and returns for
every outcome, never re-raising); a fatal event is emitted iff the
recovered value is non-nil and differs from the stop sentinel
`StopSignal = "STOP!"`; and the start site's active-goroutine count is
decremented on exit for a normal return, a sentinel panic, and any other
panic alike. -/
theorem claim_C8 (outcome : HandlerOutcome) (counts : Counts) (startFrom : String) :
    StopSignal = "STOP!" ∧
    ((goRoutineRun outcome counts startFrom).1 = true ↔
      recoveredOf outcome ≠ GoVal.nil ∧ recoveredOf outcome ≠ GoVal.str StopSignal) ∧
    countsGet (goRoutineRun outcome counts startFrom).2 startFrom
      = countsGet counts startFrom - 1 := by
  refine ⟨rfl, ?_, ?_⟩
  · unfold goRoutineRun goDeferredExit
    exact decide_eq_true_iff
  · unfold goRoutineRun goDeferredExit countsAdd
    rw [countsGet]
    rw [if_pos rfl]
    omega

end Plz
